import Mathlib

/-!
Verification of the slicing core of the ddd 3D-printing slicer.

The Rust sources are embedded shallowly:

* geometry.rs / mesh.rs: integer vectors, facets, meshes, the z-sorted
  facet filter.  Rust i64 coordinates are modelled as unbounded integers
  (the claims under study are about geometric logic, not wrap-around).
* slice.rs: the edge interpolator, the segment stitcher and the slicing
  driver.  The double-precision ratio inside zinterpolate is modelled
  exactly over the rationals, with the Rust cast "as i64" modelled as
  truncation toward zero; every concrete input used in a theorem below
  keeps all double-precision intermediates exactly representable, so the
  rational model and the compiled program agree on those inputs.
* Rust panics (failed asserts, out-of-bounds indexing) are modelled by
  Option results, with none standing for the panic.
* Loops whose body can return are modelled with an explicit fuel
  parameter; running out of fuel yields none.  For the stitching loop,
  which consumes one pool segment per pass, the fuel is instantiated at
  the pool size and proved irrelevant beyond it; for the sweep loop of
  Slicer::slice the fuel is left as an argument, so that statements about
  termination and non-termination can quantify over it.

Types that slice.rs imports but whose defining file is not part of the
provided sources (Vector2D, Polygon and its builder, Scene) are modelled
from the specification; each such definition says so in its doc comment.
-/

namespace DDD

/-- A 3D integer vector (geometry.rs); Rust i64 fields are modelled as ℤ. -/
structure Vector3D where
  x : ℤ
  y : ℤ
  z : ℤ
deriving DecidableEq, Repr

/-- Vector3D::new. -/
def Vector3D.new (x y z : ℤ) : Vector3D := ⟨x, y, z⟩

/-- Vector3D::add (the in-place mutation is modelled by returning the sum). -/
def Vector3D.add (a other : Vector3D) : Vector3D :=
  ⟨a.x + other.x, a.y + other.y, a.z + other.z⟩

/-- Vector3D::mul (componentwise scalar multiplication). -/
def Vector3D.mul (a : Vector3D) (scalar : ℤ) : Vector3D :=
  ⟨a.x * scalar, a.y * scalar, a.z * scalar⟩

/-- Modelled from the spec: Vector2D (not among the provided source files) is
an ordered pair of integer coordinates with decidable exact equality. -/
structure Vector2D where
  x : ℤ
  y : ℤ
deriving DecidableEq, Repr

/-- Vector2D::new. -/
def Vector2D.new (x y : ℤ) : Vector2D := ⟨x, y⟩

/-- Modelled from the spec: Vector3D::to_2d_at_z (not among the provided
source files) forgets the z coordinate. -/
def Vector3D.to_2d_at_z (a : Vector3D) : Vector2D := ⟨a.x, a.y⟩

/-- Squared Euclidean distance between two integer 2D points.

Modelled from the spec: Vector2D::distance (not among the provided source
files) is the Euclidean distance of the two integer points.  The stitcher
only ever compares a distance against the constant 3.0; for integer points
the double-precision comparison distance(p,q) <= 3.0 holds exactly when the
integer squared distance is at most 9 (squaring and correctly rounded sqrt
are monotone, and 3.0 and small integers are exactly representable), so the
embedding works with the squared distance throughout. -/
def dist2 (a b : Vector2D) : ℤ :=
  (a.x - b.x) ^ 2 + (a.y - b.y) ^ 2

/-- A triangle of a surface mesh (mesh.rs: struct Facet with points: [Vector3D; 3]). -/
structure Facet where
  p0 : Vector3D
  p1 : Vector3D
  p2 : Vector3D
deriving DecidableEq, Repr

/-- The three vertices, in storage order (Facet::points). -/
def Facet.points (f : Facet) : List Vector3D := [f.p0, f.p1, f.p2]

/-- Facet::translate. -/
def Facet.translate (f : Facet) (translation : Vector3D) : Facet :=
  ⟨f.p0.add translation, f.p1.add translation, f.p2.add translation⟩

/-- Facet::lower_bound: componentwise minimum of the three vertices. -/
def Facet.lower_bound (f : Facet) : Vector3D :=
  ⟨min f.p0.x (min f.p1.x f.p2.x),
   min f.p0.y (min f.p1.y f.p2.y),
   min f.p0.z (min f.p1.z f.p2.z)⟩

/-- Facet::lower_z_bound: least z among the three vertices. -/
def Facet.lower_z_bound (f : Facet) : ℤ :=
  min f.p0.z (min f.p1.z f.p2.z)

/-- Facet::upper_z_bound: greatest z among the three vertices. -/
def Facet.upper_z_bound (f : Facet) : ℤ :=
  max f.p0.z (max f.p1.z f.p2.z)

/-- Truncation toward zero of a rational: the semantics of the Rust cast
"as i64" applied to an f64 value. -/
def truncQ (q : ℚ) : ℤ := if q < 0 then ⌈q⌉ else ⌊q⌋

/-- slice.rs: zinterpolate.  Interpolates a along the segment a---b so that
the z coordinate equals plane_z; none when the segment misses the plane or
is parallel to it.  The f64 ratio and products are modelled exactly over ℚ,
the final cast by truncation toward zero. -/
def zinterpolate (a b : Vector3D) (plane_z : ℤ) : Option Vector2D :=
  if a.z = b.z then
    none
  else if a.z = plane_z then
    some a.to_2d_at_z
  else if b.z = plane_z then
    some b.to_2d_at_z
  else if (a.z < plane_z ∧ b.z > plane_z) ∨ (a.z > plane_z ∧ b.z < plane_z) then
    let dx : ℚ := ((b.x - a.x : ℤ) : ℚ)
    let dy : ℚ := ((b.y - a.y : ℤ) : ℚ)
    let dz : ℚ := ((b.z - a.z : ℤ) : ℚ)
    let zdist_aplane : ℚ := ((plane_z - a.z : ℤ) : ℚ)
    let t : ℚ := zdist_aplane / dz
    some ⟨a.x + truncQ (dx * t), a.y + truncQ (dy * t)⟩
  else
    none

/-- Division-free form of zinterpolate: the exact rational interpolation
truncated toward zero equals a single truncating integer division.  Used to
evaluate zinterpolate on concrete inputs inside kernel-checked proofs. -/
def zinterpolateTdiv (a b : Vector3D) (plane_z : ℤ) : Option Vector2D :=
  if a.z = b.z then
    none
  else if a.z = plane_z then
    some a.to_2d_at_z
  else if b.z = plane_z then
    some b.to_2d_at_z
  else if (a.z < plane_z ∧ b.z > plane_z) ∨ (a.z > plane_z ∧ b.z < plane_z) then
    some ⟨a.x + ((b.x - a.x) * (plane_z - a.z)).tdiv (b.z - a.z),
          a.y + ((b.y - a.y) * (plane_z - a.z)).tdiv (b.z - a.z)⟩
  else
    none

/-- lib.rs: the error enum. -/
inductive Error where
  | MeshFileParse
  | EmptyScene
  | OpenStitchPolygon
deriving DecidableEq, Repr

/-- Modelled from the spec: a Polygon (not among the provided source files)
is a closed sequence of 2D vertices, first and last coinciding, built only
through its builder. -/
structure Polygon where
  vertices : List Vector2D
deriving DecidableEq, Repr

/-- Modelled from the spec: the polygon builder remembers the start vertex
and the vertices appended so far. -/
structure PolygonBuilder where
  start : Vector2D
  verts : List Vector2D
deriving DecidableEq, Repr

/-- Modelled from the spec: Polygon::builder starts a polygon at a vertex. -/
def Polygon.builder (v : Vector2D) : PolygonBuilder := ⟨v, [v]⟩

/-- Modelled from the spec: PolygonBuilder::line_to appends a vertex. -/
def PolygonBuilder.line_to (b : PolygonBuilder) (v : Vector2D) : PolygonBuilder :=
  ⟨b.start, b.verts ++ [v]⟩

/-- Modelled from the spec: PolygonBuilder::close re-appends the start
vertex, producing the closed polygon. -/
def PolygonBuilder.close (b : PolygonBuilder) : Polygon :=
  ⟨b.verts ++ [b.start]⟩

/-- A line segment: [Vector2D; 2] in slice.rs. -/
def Segment : Type := Vector2D × Vector2D

instance : DecidableEq Segment := instDecidableEqProd

instance {ε α : Type} [DecidableEq ε] [DecidableEq α] : DecidableEq (Except ε α) := fun a b =>
  match a, b with
  | .ok x, .ok y =>
    if h : x = y then .isTrue (by rw [h]) else .isFalse (fun hh => h (Except.ok.inj hh))
  | .ok _, .error _ => .isFalse (fun hh => Except.noConfusion hh)
  | .error _, .ok _ => .isFalse (fun hh => Except.noConfusion hh)
  | .error x, .error y =>
    if h : x = y then .isTrue (by rw [h]) else .isFalse (fun hh => h (Except.error.inj hh))

/-- The inner search of the stitching loop in stitch_segments: scan the pool
in storage order for the first segment with an endpoint within MAX_SNAP_DIST
(= 3.0, so squared distance at most 9) of the open end; if found, return the
other endpoint of that segment together with the pool with that segment
removed.  Checking endpoint 0 before endpoint 1 mirrors the source. -/
def findAndRemove (openEnd : Vector2D) : List Segment → Option (Vector2D × List Segment)
  | [] => none
  | s :: rest =>
    if dist2 s.1 openEnd ≤ 9 then
      some (s.2, rest)
    else if dist2 s.2 openEnd ≤ 9 then
      some (s.1, rest)
    else
      match findAndRemove openEnd rest with
      | some (v, rest') => some (v, s :: rest')
      | none => none

/-- The main loop of stitch_segments: repeatedly consume the first pool
segment with an endpoint within snap distance of the open end, recording the
open end in the builder; when no segment matches, close the polygon if the
pool is drained and fail with OpenStitchPolygon otherwise.

Each pass through the Rust loop removes a segment from the pool, so the
loop runs at most pool-size many passes; the recursion is bounded by a fuel
parameter that every caller instantiates above the pool size, which by
stitchLoop_fuel_irrelevant loses nothing. -/
def stitchLoop : ℕ → List Segment → Vector2D → PolygonBuilder → Except Error Polygon
  | 0, segs, _, b =>
    if segs.isEmpty then .ok b.close else .error .OpenStitchPolygon
  | fuel + 1, segs, openEnd, b =>
    match findAndRemove openEnd segs with
    | some (v, rest) => stitchLoop fuel rest v (b.line_to openEnd)
    | none => if segs.isEmpty then .ok b.close else .error .OpenStitchPolygon

/-- slice.rs: stitch_segments.  Ok none on an empty pool; otherwise pop the
last segment, start the builder at its first endpoint and run the loop with
its second endpoint as the open end. -/
def stitch_segments (segments : List Segment) : Except Error (Option Polygon) :=
  match segments.getLast? with
  | none => .ok none
  | some s => (stitchLoop segments.length segments.dropLast s.2 (Polygon.builder s.1)).map some

/-- mesh.rs: struct Mesh. -/
structure Mesh where
  facets : List Facet
deriving DecidableEq, Repr

/-- Mesh::translate. -/
def Mesh.translate (m : Mesh) (translation : Vector3D) : Mesh :=
  ⟨m.facets.map (fun f => f.translate translation)⟩

/-- Mesh::zeroize: componentwise minimum of the facets' lower bounds,
negated, then applied as a translation.  Indexing facets[0] panics on an
empty mesh; none models that panic. -/
def Mesh.zeroize : Mesh → Option Mesh
  | ⟨[]⟩ => none
  | ⟨f :: rest⟩ =>
    let translation := rest.foldl
      (fun t g => ⟨min t.x g.lower_bound.x, min t.y g.lower_bound.y, min t.z g.lower_bound.z⟩)
      f.lower_bound
    some (Mesh.translate ⟨f :: rest⟩ (translation.mul (-1)))

/-- Mesh::new_zeroed: build a mesh from facets and zero it (none = the
zeroize panic on an empty facet list). -/
def Mesh.new_zeroed (facets : List Facet) : Option Mesh :=
  Mesh.zeroize ⟨facets⟩

/-- mesh.rs: CachedFacetBounds, a facet with its cached z bounds. -/
structure CachedFacetBounds where
  facet : Facet
  lower_bound : ℤ
  upper_bound : ℤ
deriving DecidableEq, Repr

/-- CachedFacetBounds::new. -/
def CachedFacetBounds.new (facet : Facet) : CachedFacetBounds :=
  ⟨facet, facet.lower_z_bound, facet.upper_z_bound⟩

/-- mesh.rs: ZSortedFacets - all facets sorted by lower bound in descending
order, plus the current sweep height. -/
structure ZSortedFacets where
  facets : List CachedFacetBounds
  current_height : ℤ
deriving DecidableEq, Repr

/-- ZSortedFacets::advance_height.  The source walks the index enumeration
in reverse, takes while lower_bound < new height, keeps the indexes with
upper_bound < new height, and drains exactly those indexes (the range
collapsing is an optimization that removes the same index set).  On lists:
reverse, split off the longest prefix of the reversed list with
lower_bound < h, drop from it the facets with upper_bound < h, reassemble. -/
def ZSortedFacets.advance_height (s : ZSortedFacets) (increment : ℕ) : ZSortedFacets :=
  let h := s.current_height + increment
  let rev := s.facets.reverse
  let run := rev.takeWhile (fun f => decide (f.lower_bound < h))
  let rest := rev.dropWhile (fun f => decide (f.lower_bound < h))
  ⟨(run.filter (fun f => !decide (f.upper_bound < h)) ++ rest).reverse, h⟩

/-- ZSortedFacets::new: cache bounds, sort by lower bound descending
(sort_unstable_by comparing b to a), then advance by 0 to trim facets
already below the start height. -/
def ZSortedFacets.new (facets : List Facet) (start_height : ℤ) : ZSortedFacets :=
  let cached := facets.map CachedFacetBounds.new
  let sorted := cached.mergeSort (fun a b => decide (b.lower_bound ≤ a.lower_bound))
  ZSortedFacets.advance_height ⟨sorted, start_height⟩ 0

/-- The bounds-level view behind ZSortedFacets::facet_intersections.  The
source scans from the tail for the first facet with
lower_bound > current_height and returns everything strictly past it (the
whole list when none exists): that is the longest suffix in which every
facet has lower_bound <= current_height. -/
def ZSortedFacets.intersectingBounds (s : ZSortedFacets) : List CachedFacetBounds :=
  (s.facets.reverse.takeWhile (fun f => !decide (s.current_height < f.lower_bound))).reverse

/-- ZSortedFacets::facet_intersections (the iterator yields the facets of
the suffix in order). -/
def ZSortedFacets.facet_intersections (s : ZSortedFacets) : List Facet :=
  s.intersectingBounds.map (fun f => f.facet)

/-- ZSortedFacets::done / the is_empty check of the driver loop. -/
def ZSortedFacets.done (s : ZSortedFacets) : Bool :=
  s.facets.isEmpty

/-- Modelled from the spec: Scene (not among the provided source files) is a
flat append-only collection of the triangles of the added meshes. -/
structure Scene where
  facets : List Facet
deriving DecidableEq, Repr

/-- Modelled from the spec: Scene::is_empty. -/
def Scene.is_empty (s : Scene) : Bool :=
  s.facets.isEmpty

/-- Least lower_z over a list of facets, defaulting to 0 on the empty list
(the driver rejects empty scenes before this value is ever consumed). -/
def minLowerZ (fs : List Facet) : ℤ :=
  ((fs.map Facet.lower_z_bound).min?).getD 0

/-- Modelled from the spec: Scene::to_facet_filter freezes the scene into a
ZSortedFacets whose starting height is the least lower_z of its facets. -/
def Scene.to_facet_filter (s : Scene) : ZSortedFacets :=
  ZSortedFacets.new s.facets (minLowerZ s.facets)

/-- slice.rs: SliceIsland - one outline plus (always empty) holes. -/
structure SliceIsland where
  outline : Polygon
  holes : List Polygon
deriving DecidableEq, Repr

/-- slice.rs: Slice - a layer thickness (u64 nanometers, modelled as ℕ) and
its islands. -/
structure Slice where
  thickness : ℕ
  islands : List SliceIsland
deriving DecidableEq, Repr

/-- slice.rs: SlicerConfig. -/
structure SlicerConfig where
  layer_height : ℕ
deriving DecidableEq, Repr

/-- The edge enumeration of the per-facet pass in Slicer::slice:
[v0,v1], [v0,v2], [v1,v2] in that order. -/
def vertexCombos (f : Facet) : List (Vector3D × Vector3D) :=
  [(f.p0, f.p1), (f.p0, f.p2), (f.p1, f.p2)]

/-- One edge step of the per-facet intersection pass of Slicer::slice.  The
state is some (points collected so far, have_vertex_on_plane flag); none
records that an assert fired (idx < 2 violated, i.e. a third insertion was
attempted).  An intersection coming from an edge with a vertex exactly on
the plane is recorded at most once, via the flag. -/
def passStep (plane : ℤ) (st : Option (List Vector2D × Bool)) (e : Vector3D × Vector3D) :
    Option (List Vector2D × Bool) :=
  match st with
  | none => none
  | some (pts, flag) =>
    match zinterpolate e.1 e.2 plane with
    | none => some (pts, flag)
    | some pt =>
      if e.1.z = plane ∨ e.2.z = plane then
        if flag then
          some (pts, flag)
        else if pts.length < 2 then
          some (pts ++ [pt], true)
        else
          none
      else if pts.length < 2 then
        some (pts ++ [pt], flag)
      else
        none

/-- The per-facet intersection pass of Slicer::slice: run the three edges
and demand exactly two collected points (assert_eq!(idx, 2)); none models
the panic of either assert. -/
def facetSegment (f : Facet) (plane : ℤ) : Option Segment :=
  match (vertexCombos f).foldl (passStep plane) (some ([], false)) with
  | some ([p, q], _) => some (p, q)
  | _ => none

/-- passStep with the division-free interpolator, for concrete kernel
evaluation. -/
def passStepTdiv (plane : ℤ) (st : Option (List Vector2D × Bool)) (e : Vector3D × Vector3D) :
    Option (List Vector2D × Bool) :=
  match st with
  | none => none
  | some (pts, flag) =>
    match zinterpolateTdiv e.1 e.2 plane with
    | none => some (pts, flag)
    | some pt =>
      if e.1.z = plane ∨ e.2.z = plane then
        if flag then
          some (pts, flag)
        else if pts.length < 2 then
          some (pts ++ [pt], true)
        else
          none
      else if pts.length < 2 then
        some (pts ++ [pt], flag)
      else
        none

/-- facetSegment with the division-free interpolator. -/
def facetSegmentTdiv (f : Facet) (plane : ℤ) : Option Segment :=
  match (vertexCombos f).foldl (passStepTdiv plane) (some ([], false)) with
  | some ([p, q], _) => some (p, q)
  | _ => none

/-- The segment collection loop of one layer: a segment per intersecting
facet, in iteration order; none as soon as a facet panics. -/
def buildSegments (facets : List Facet) (plane : ℤ) : Option (List Segment) :=
  facets.mapM (fun f => facetSegment f plane)

/-- Outcome of running Slicer::slice: the process panicked on an assert,
returned an error, or returned the slice stack. -/
inductive RunOutcome where
  | panicked
  | failed (e : Error)
  | finished (slices : List Slice)
deriving DecidableEq, Repr

/-- The while loop of Slicer::slice, indexed by fuel; none means the fuel
ran out with the loop still running (the loop does not terminate within
that many iterations). -/
def sliceLoop (cfg : SlicerConfig) : ℕ → ZSortedFacets → List Slice → Option RunOutcome
  | 0, _, _ => none
  | fuel + 1, ff, acc =>
    if ff.facets.isEmpty then
      some (.finished acc)
    else
      match buildSegments ff.facet_intersections ff.current_height with
      | none => some .panicked
      | some segments =>
        match stitch_segments segments with
        | .error e => some (.failed e)
        | .ok res =>
          let slice : Slice :=
            match res with
            | some outline => ⟨cfg.layer_height, [⟨outline, []⟩]⟩
            | none => ⟨cfg.layer_height, []⟩
          sliceLoop cfg fuel (ff.advance_height cfg.layer_height) (acc ++ [slice])

/-- Slicer::slice: reject an empty scene, then sweep. -/
def Slicer.slice (cfg : SlicerConfig) (scene : Scene) (fuel : ℕ) : Option RunOutcome :=
  if scene.facets.isEmpty then
    some (.failed .EmptyScene)
  else
    sliceLoop cfg fuel scene.to_facet_filter []

/-- sliceLoop with the division-free interpolator, for concrete kernel
evaluation. -/
def sliceLoopTdiv (cfg : SlicerConfig) : ℕ → ZSortedFacets → List Slice → Option RunOutcome
  | 0, _, _ => none
  | fuel + 1, ff, acc =>
    if ff.facets.isEmpty then
      some (.finished acc)
    else
      match ff.facet_intersections.mapM (fun f => facetSegmentTdiv f ff.current_height) with
      | none => some .panicked
      | some segments =>
        match stitch_segments segments with
        | .error e => some (.failed e)
        | .ok res =>
          let slice : Slice :=
            match res with
            | some outline => ⟨cfg.layer_height, [⟨outline, []⟩]⟩
            | none => ⟨cfg.layer_height, []⟩
          sliceLoopTdiv cfg fuel (ff.advance_height cfg.layer_height) (acc ++ [slice])

/-- The translation computed inside Mesh::zeroize for a non-empty facet
list: the componentwise minimum of the facets' lower bounds, folded exactly
as the source loop does. -/
def zeroizeTranslation (f : Facet) (fs : List Facet) : Vector3D :=
  fs.foldl
    (fun t g => ⟨min t.x g.lower_bound.x, min t.y g.lower_bound.y, min t.z g.lower_bound.z⟩)
    f.lower_bound

/-- The state reached by constructing a ZSortedFacets from a facet list and
a start height and then applying any sequence of advance_height calls. -/
def advanceSeq (facets : List Facet) (start_height : ℤ) (incs : List ℕ) : ZSortedFacets :=
  incs.foldl ZSortedFacets.advance_height (ZSortedFacets.new facets start_height)

/-! Concrete inputs used by the counterexamples and witnesses below. -/

/-- A horizontal facet lying flat at z = 0. -/
def flatFacetZ0 : Facet := ⟨⟨0, 0, 0⟩, ⟨10, 0, 0⟩, ⟨0, 10, 0⟩⟩

/-- A facet with a bottom edge at z = 0 and one vertex at z = 10. -/
def slantFacet : Facet := ⟨⟨0, 0, 0⟩, ⟨10, 0, 0⟩, ⟨0, 0, 10⟩⟩

/-- A closed triangular loop of three segments around (100,100). -/
def loopA : List Segment :=
  [(⟨100, 100⟩, ⟨110, 100⟩), (⟨110, 100⟩, ⟨100, 110⟩), (⟨100, 110⟩, ⟨100, 100⟩)]

/-- A closed triangular loop of three segments around the origin, far from
loopA. -/
def loopB : List Segment :=
  [(⟨0, 0⟩, ⟨10, 0⟩), (⟨10, 0⟩, ⟨0, 10⟩), (⟨0, 10⟩, ⟨0, 0⟩)]

/-- A pool holding two disjoint closed loops. -/
def twoLoopPool : List Segment := loopA ++ loopB

/-- A pool whose second segment only nearly touches the first: the open end
(10,0) is at distance sqrt 2 from the endpoint (11,1). -/
def snapPool : List Segment :=
  [(⟨11, 1⟩, ⟨12, 5⟩), (⟨0, 0⟩, ⟨10, 0⟩)]

/-! Infrastructure lemmas: the rational interpolation equals its
division-free form, and the fuel encodings are faithful. -/

theorem truncQ_intCast_div_pos (m n : ℤ) (hn : 0 < n) :
    truncQ ((m : ℚ) / (n : ℚ)) = m.tdiv n := by
  have hd : ((n : ℤ) : ℚ) = ((n.toNat : ℕ) : ℚ) := by
    have h := Int.toNat_of_nonneg hn.le
    exact_mod_cast h.symm
  rcases le_or_lt 0 m with hm | hm
  · have hq : (0 : ℚ) ≤ (m : ℚ) / (n : ℚ) :=
      div_nonneg (by exact_mod_cast hm) (by exact_mod_cast hn.le)
    rw [truncQ, if_neg (not_lt.mpr hq), hd, Rat.floor_intCast_div_natCast m n.toNat,
      Int.toNat_of_nonneg hn.le, Int.tdiv_eq_ediv hm hn.le]
  · have hq : (m : ℚ) / (n : ℚ) < 0 :=
      div_neg_of_neg_of_pos (by exact_mod_cast hm) (by exact_mod_cast hn)
    have hrw : (m : ℚ) / (n : ℚ) = -(((-m : ℤ) : ℚ) / (n : ℚ)) := by
      push_cast
      ring
    rw [truncQ, if_pos hq, hrw, Int.ceil_neg, hd, Rat.floor_intCast_div_natCast (-m) n.toNat,
      Int.toNat_of_nonneg hn.le, ← Int.tdiv_eq_ediv (by omega) hn.le, Int.neg_tdiv, neg_neg]

theorem truncQ_intCast_div (m n : ℤ) (hn : n ≠ 0) :
    truncQ ((m : ℚ) / (n : ℚ)) = m.tdiv n := by
  rcases hn.lt_or_lt with hneg | hpos
  · have h1 : (m : ℚ) / (n : ℚ) = ((-m : ℤ) : ℚ) / ((-n : ℤ) : ℚ) := by
      push_cast
      rw [neg_div_neg_eq]
    rw [h1, truncQ_intCast_div_pos (-m) (-n) (by omega), Int.neg_tdiv, Int.tdiv_neg, neg_neg]
  · exact truncQ_intCast_div_pos m n hpos

/-- zinterpolate agrees with its division-free form. -/
theorem zinterpolate_eq_tdiv (a b : Vector3D) (plane_z : ℤ) :
    zinterpolate a b plane_z = zinterpolateTdiv a b plane_z := by
  unfold zinterpolate zinterpolateTdiv
  split_ifs with h1 h2 h3 h4
  · rfl
  · rfl
  · rfl
  · have hz : b.z - a.z ≠ 0 := sub_ne_zero_of_ne (Ne.symm h1)
    have hx : ((b.x - a.x : ℤ) : ℚ) * (((plane_z - a.z : ℤ) : ℚ) / ((b.z - a.z : ℤ) : ℚ)) =
        (((b.x - a.x) * (plane_z - a.z) : ℤ) : ℚ) / ((b.z - a.z : ℤ) : ℚ) := by
      push_cast
      ring
    have hy : ((b.y - a.y : ℤ) : ℚ) * (((plane_z - a.z : ℤ) : ℚ) / ((b.z - a.z : ℤ) : ℚ)) =
        (((b.y - a.y) * (plane_z - a.z) : ℤ) : ℚ) / ((b.z - a.z : ℤ) : ℚ) := by
      push_cast
      ring
    simp only [hx, hy, truncQ_intCast_div _ _ hz]
  · rfl

theorem passStep_eq_tdiv (plane : ℤ) : passStep plane = passStepTdiv plane := by
  funext st e
  unfold passStep passStepTdiv
  rw [zinterpolate_eq_tdiv]

theorem facetSegment_eq_tdiv (f : Facet) (plane : ℤ) :
    facetSegment f plane = facetSegmentTdiv f plane := by
  unfold facetSegment facetSegmentTdiv
  rw [passStep_eq_tdiv]

theorem buildSegments_eq_tdiv (facets : List Facet) (plane : ℤ) :
    buildSegments facets plane = facets.mapM (fun f => facetSegmentTdiv f plane) := by
  unfold buildSegments
  simp only [facetSegment_eq_tdiv]

theorem sliceLoop_eq_tdiv (cfg : SlicerConfig) :
    ∀ (fuel : ℕ) (ff : ZSortedFacets) (acc : List Slice),
      sliceLoop cfg fuel ff acc = sliceLoopTdiv cfg fuel ff acc := by
  intro fuel
  induction fuel with
  | zero => intro ff acc; rfl
  | succ f ih =>
    intro ff acc
    show sliceLoop cfg (f + 1) ff acc = sliceLoopTdiv cfg (f + 1) ff acc
    unfold sliceLoop sliceLoopTdiv
    rw [buildSegments_eq_tdiv]
    simp only [ih]

theorem findAndRemove_length {openEnd : Vector2D} :
    ∀ {segs : List Segment} {v : Vector2D} {rest : List Segment},
      findAndRemove openEnd segs = some (v, rest) → rest.length + 1 = segs.length := by
  intro segs
  induction segs with
  | nil => intro v rest h; simp [findAndRemove] at h
  | cons s tail ih =>
    intro v rest h
    unfold findAndRemove at h
    split_ifs at h with h1 h2
    · cases h; simp
    · cases h; simp
    · revert h
      match hfar : findAndRemove openEnd tail with
      | some (w, rest') =>
        intro h
        cases h
        have := ih hfar
        simp [List.length_cons]
        omega
      | none => intro h; cases h

/-- Any fuel above the pool size gives the same stitching result: the fuel
encoding is faithful to the unbounded Rust loop. -/
theorem stitchLoop_fuel_irrelevant :
    ∀ (fuel₁ fuel₂ : ℕ) (segs : List Segment) (openEnd : Vector2D) (b : PolygonBuilder),
      segs.length < fuel₁ → segs.length < fuel₂ →
      stitchLoop fuel₁ segs openEnd b = stitchLoop fuel₂ segs openEnd b := by
  intro fuel₁
  induction fuel₁ with
  | zero => intro fuel₂ segs openEnd b h1 h2; omega
  | succ f₁ ih =>
    intro fuel₂ segs openEnd b h1 h2
    match fuel₂ with
    | 0 => omega
    | f₂ + 1 =>
      show stitchLoop (f₁ + 1) segs openEnd b = stitchLoop (f₂ + 1) segs openEnd b
      unfold stitchLoop
      match hfar : findAndRemove openEnd segs with
      | some (v, rest) =>
        have hlen := findAndRemove_length hfar
        exact ih f₂ rest v (b.line_to openEnd) (by omega) (by omega)
      | none => rfl

/-! C3: order independence of zinterpolate. -/

/-- C3 counterexample: zinterpolate is not order independent.  On the edge
from (0,0,0) to (3,0,2) cut at z = 1 the exact crossing is x = 1.5; called
one way the code truncates 1.5 to 1, called the other way it truncates
3 + (-1.5) to 3 + (-1) = 2.  All double-precision intermediates (3, 2, 1,
0.5, 1.5, -1.5) are exactly representable, so the compiled program shows
the same two different points.  There is no canonicalizing swap in the
source. -/
theorem zinterpolate_order_dependence_counterexample :
    zinterpolate ⟨0, 0, 0⟩ ⟨3, 0, 2⟩ 1 = some ⟨1, 0⟩ ∧
      zinterpolate ⟨3, 0, 2⟩ ⟨0, 0, 0⟩ 1 = some ⟨2, 0⟩ ∧
      zinterpolate ⟨0, 0, 0⟩ ⟨3, 0, 2⟩ 1 ≠ zinterpolate ⟨3, 0, 2⟩ ⟨0, 0, 0⟩ 1 := by
  rw [zinterpolate_eq_tdiv, zinterpolate_eq_tdiv]
  refine ⟨by decide, by decide, by decide⟩

/-- C3 amended: zinterpolate is order independent whenever the segment does
not strictly cross the plane, i.e. when the two endpoints share their z or
either endpoint lies exactly on the plane; only the truncated interpolation
of a strict crossing is order dependent. -/
theorem zinterpolate_comm_of_no_strict_crossing (a b : Vector3D) (plane_z : ℤ)
    (h : a.z = b.z ∨ a.z = plane_z ∨ b.z = plane_z) :
    zinterpolate a b plane_z = zinterpolate b a plane_z := by
  rcases h with h | h | h
  · unfold zinterpolate
    rw [if_pos h, if_pos h.symm]
  · by_cases hab : a.z = b.z
    · unfold zinterpolate
      rw [if_pos hab, if_pos hab.symm]
    · unfold zinterpolate
      rw [if_neg hab, if_pos h, if_neg (fun hh => hab hh.symm),
        if_neg (fun hh => hab (h.trans hh.symm)), if_pos h]
  · by_cases hab : a.z = b.z
    · unfold zinterpolate
      rw [if_pos hab, if_pos hab.symm]
    · unfold zinterpolate
      rw [if_neg hab, if_neg (fun hh => hab (hh.trans h.symm)), if_pos h,
        if_neg (fun hh => hab hh.symm), if_pos h]

/-- C3 witness for the amended theorem, at a vertex lying on the plane. -/
theorem zinterpolate_comm_witness :
    zinterpolate ⟨0, 0, 3⟩ ⟨5, 5, 7⟩ 3 = zinterpolate ⟨5, 5, 7⟩ ⟨0, 0, 3⟩ 3 :=
  zinterpolate_comm_of_no_strict_crossing ⟨0, 0, 3⟩ ⟨5, 5, 7⟩ 3 (Or.inr (Or.inl rfl))

/-! C5: endpoint matching in the stitcher. -/

/-- C5 counterexample: matching is not by exact integer equality.  In
snapPool the open end is (10,0) and the only other segment has endpoints
(11,1) and (12,5), both different from (10,0); still the stitcher consumes
it ((11,1) is within the snap distance 3.0) and returns a polygon whose
middle vertex (10,0) was recorded by that consumption, instead of the
OpenStitchPolygon error that exact matching would produce. -/
theorem stitch_snaps_nearby_endpoints :
    stitch_segments snapPool = .ok (some ⟨[⟨0, 0⟩, ⟨10, 0⟩, ⟨0, 0⟩]⟩) ∧
      ((⟨11, 1⟩ : Vector2D) ≠ ⟨10, 0⟩ ∧ (⟨12, 5⟩ : Vector2D) ≠ ⟨10, 0⟩) := by
  decide

/-- C5 amended: the stitching search consumes a segment exactly when one of
its endpoints is within Euclidean distance 3.0 of the open end (squared
distance at most 9); exact integer equality is the special case of squared
distance 0, but endpoints that differ by up to the snap distance are
matched as well. -/
theorem findAndRemove_isSome_iff_snap_close (openEnd : Vector2D) (segs : List Segment) :
    (findAndRemove openEnd segs).isSome ↔
      ∃ s ∈ segs, dist2 s.1 openEnd ≤ 9 ∨ dist2 s.2 openEnd ≤ 9 := by
  induction segs with
  | nil => simp [findAndRemove]
  | cons s tail ih =>
    unfold findAndRemove
    split_ifs with h1 h2
    · exact iff_of_true rfl ⟨s, List.mem_cons_self s tail, Or.inl h1⟩
    · exact iff_of_true rfl ⟨s, List.mem_cons_self s tail, Or.inr h2⟩
    · cases hfar : findAndRemove openEnd tail with
      | some vr =>
        refine iff_of_true rfl ?_
        have htail : ∃ t ∈ tail, dist2 t.1 openEnd ≤ 9 ∨ dist2 t.2 openEnd ≤ 9 := by
          rw [← ih, hfar]
          rfl
        obtain ⟨t, ht, hc⟩ := htail
        exact ⟨t, List.mem_cons_of_mem s ht, hc⟩
      | none =>
        refine iff_of_false (fun hh => by simp at hh) ?_
        rintro ⟨t, ht, hc⟩
        rcases List.mem_cons.mp ht with rfl | ht'
        · rcases hc with hc | hc
          · exact h1 hc
          · exact h2 hc
        · have hsome : (findAndRemove openEnd tail).isSome := ih.mpr ⟨t, ht', hc⟩
          rw [hfar] at hsome
          exact absurd hsome (by decide)

/-! C6: when stitching reports OpenStitchPolygon. -/

/-- C6 counterexample: a pool of a single segment does not yield
OpenStitchPolygon; there is no minimum-pool-size check in the source, so the
lone segment is popped, its open end matches nothing, the drained pool ends
the loop, and a degenerate two-vertex polygon is returned. -/
theorem stitch_single_segment_returns_polygon :
    stitch_segments [(⟨0, 0⟩, ⟨10, 0⟩)] = .ok (some ⟨[⟨0, 0⟩, ⟨0, 0⟩]⟩) ∧
      stitch_segments [(⟨0, 0⟩, ⟨10, 0⟩)] ≠ .error .OpenStitchPolygon := by
  decide

theorem stitchLoop_error_shape :
    ∀ (fuel : ℕ) (segs : List Segment) (openEnd : Vector2D) (b : PolygonBuilder) (e : Error),
      stitchLoop fuel segs openEnd b = .error e →
      e = .OpenStitchPolygon ∧ 1 ≤ segs.length := by
  intro fuel
  induction fuel with
  | zero =>
    intro segs openEnd b e h
    unfold stitchLoop at h
    split_ifs at h with hemp
    refine ⟨by injection h with he; exact he.symm, ?_⟩
    rcases segs with _ | ⟨s, t⟩
    · simp at hemp
    · simp
  | succ f ih =>
    intro segs openEnd b e h
    unfold stitchLoop at h
    revert h
    match hfar : findAndRemove openEnd segs with
    | some (v, rest) =>
      intro h
      have hrec := ih rest v (b.line_to openEnd) e h
      have hlen := findAndRemove_length hfar
      exact ⟨hrec.1, by omega⟩
    | none =>
      intro h
      split_ifs at h with hemp
      refine ⟨by injection h with he; exact he.symm, ?_⟩
      rcases segs with _ | ⟨s, t⟩
      · simp at hemp
      · simp

/-- C6 amended: there is no pool-size check and no start-vertex comparison.
A one-segment pool always returns a degenerate closed polygon (the popped
segment's first endpoint twice), and an error is produced exactly by an open
end that matches nothing while segments remain, so every error is
OpenStitchPolygon and needs an initial pool of at least two segments. -/
theorem stitch_error_characterization :
    (∀ a b : Vector2D, stitch_segments [(a, b)] = .ok (some ⟨[a, a]⟩)) ∧
      (∀ (segs : List Segment) (e : Error), stitch_segments segs = .error e →
        e = .OpenStitchPolygon ∧ 2 ≤ segs.length) := by
  constructor
  · intro a b
    rfl
  · intro segs e h
    unfold stitch_segments at h
    revert h
    match hlast : segs.getLast? with
    | none => intro h; cases h
    | some s =>
      intro h
      have h' : Except.map some (stitchLoop segs.length segs.dropLast s.2 (Polygon.builder s.1)) =
          .error e := h
      have hloop : stitchLoop segs.length segs.dropLast s.2 (Polygon.builder s.1) = .error e := by
        cases hl : stitchLoop segs.length segs.dropLast s.2 (Polygon.builder s.1) with
        | ok p =>
          rw [hl] at h'
          exact Except.noConfusion h'
        | error e' =>
          rw [hl] at h'
          injection h' with he
          rw [he]
      have hshape := stitchLoop_error_shape _ _ _ _ _ hloop
      have hdrop : segs.dropLast.length = segs.length - 1 := List.length_dropLast segs
      have hne : segs ≠ [] := by
        intro hnil
        rw [hnil] at hlast
        exact Option.noConfusion hlast
      have hpos : 1 ≤ segs.length := by
        rcases segs with _ | ⟨a, t⟩
        · exact absurd rfl hne
        · simp
      exact ⟨hshape.1, by omega⟩

/-- C6 witness: the single-segment equation at (3,4)-(7,7), and the error
shape at the two-loop pool (which stitches to OpenStitchPolygon). -/
theorem stitch_error_characterization_witness :
    stitch_segments [(⟨3, 4⟩, ⟨7, 7⟩)] = .ok (some ⟨[⟨3, 4⟩, ⟨3, 4⟩]⟩) ∧
      (Error.OpenStitchPolygon = Error.OpenStitchPolygon ∧ 2 ≤ twoLoopPool.length) :=
  ⟨stitch_error_characterization.1 ⟨3, 4⟩ ⟨7, 7⟩,
   stitch_error_characterization.2 twoLoopPool .OpenStitchPolygon (by decide)⟩

/-! C4: one island per closed loop. -/

/-- C4 counterexample: the driver does not drain the pool loop by loop.
Each of the two loops stitches to a closed polygon on its own, but the
combined pool of the two disjoint loops makes stitch_segments fail with
OpenStitchPolygon after closing the first loop (segments remain whose
endpoints are all far from the open end), so a layer with two islands
produces no Slice at all. -/
theorem stitch_two_disjoint_loops_error :
    stitch_segments loopA =
        .ok (some ⟨[⟨100, 110⟩, ⟨100, 100⟩, ⟨110, 100⟩, ⟨100, 110⟩]⟩) ∧
      stitch_segments loopB = .ok (some ⟨[⟨0, 10⟩, ⟨0, 0⟩, ⟨10, 0⟩, ⟨0, 10⟩]⟩) ∧
      stitch_segments twoLoopPool = .error .OpenStitchPolygon := by
  decide

theorem sliceLoop_islands_le_one (cfg : SlicerConfig) :
    ∀ (fuel : ℕ) (ff : ZSortedFacets) (acc slices : List Slice),
      (∀ s ∈ acc, s.islands.length ≤ 1) →
      sliceLoop cfg fuel ff acc = some (.finished slices) →
      ∀ s ∈ slices, s.islands.length ≤ 1 := by
  intro fuel
  induction fuel with
  | zero => intro ff acc slices hacc h; cases h
  | succ f ih =>
    intro ff acc slices hacc h
    unfold sliceLoop at h
    split_ifs at h with hemp
    · injection h with hfin
      injection hfin with hsl
      rw [← hsl]
      exact hacc
    · cases hbs : buildSegments ff.facet_intersections ff.current_height with
      | none =>
        rw [hbs] at h
        simp at h
      | some segments =>
        simp only [hbs] at h
        cases hst : stitch_segments segments with
        | error e =>
          simp only [hst] at h
          simp at h
        | ok res =>
          simp only [hst] at h
          rcases res with _ | outline
          · refine ih _ _ _ ?_ h
            intro s hs
            rcases List.mem_append.mp hs with hs' | hs'
            · exact hacc s hs'
            · simp only [List.mem_singleton] at hs'
              subst hs'
              simp
          · refine ih _ _ _ ?_ h
            intro s hs
            rcases List.mem_append.mp hs with hs' | hs'
            · exact hacc s hs'
            · simp only [List.mem_singleton] at hs'
              subst hs'
              simp

/-- C4 amended: whatever the layer contents, the driver never appends more
than one island per slice: stitch_segments is called once per layer and its
single polygon (when present) is wrapped as the only island.  (A layer whose
segments form several loops does not produce several islands - by the
counterexample it aborts the whole slicing with OpenStitchPolygon.) -/
theorem slices_at_most_one_island (cfg : SlicerConfig) (fuel : ℕ) (ff : ZSortedFacets)
    (slices : List Slice) (h : sliceLoop cfg fuel ff [] = some (.finished slices)) :
    ∀ s ∈ slices, s.islands.length ≤ 1 :=
  sliceLoop_islands_le_one cfg fuel ff [] slices (by intro s hs; cases hs) h

/-- C4 witness: a single strictly crossing facet at height 5 finishes in two
iterations with one slice holding exactly one island. -/
theorem slices_at_most_one_island_witness :
    (Slice.mk 100 [⟨⟨[⟨0, 0⟩, ⟨0, 0⟩]⟩, []⟩]).islands.length ≤ 1 :=
  slices_at_most_one_island ⟨100⟩ 2 ⟨[CachedFacetBounds.new slantFacet], 5⟩
    [⟨100, [⟨⟨[⟨0, 0⟩, ⟨0, 0⟩]⟩, []⟩]⟩]
    (by rw [sliceLoop_eq_tdiv]; decide)
    ⟨100, [⟨⟨[⟨0, 0⟩, ⟨0, 0⟩]⟩, []⟩]⟩ (List.mem_singleton.mpr rfl)

/-! Facet-filter lemmas: what advance_height removes and what the
intersection view contains. -/

/-- advance_height written with its let bindings expanded. -/
theorem advance_height_eq (s : ZSortedFacets) (inc : ℕ) :
    s.advance_height inc =
      ⟨((s.facets.reverse.takeWhile
            (fun f => decide (f.lower_bound < s.current_height + (inc : ℤ)))).filter
          (fun f => !decide (f.upper_bound < s.current_height + (inc : ℤ))) ++
        s.facets.reverse.dropWhile
          (fun f => decide (f.lower_bound < s.current_height + (inc : ℤ)))).reverse,
       s.current_height + (inc : ℤ)⟩ := rfl

/-- In a list ascending by lower_bound, everything surviving the dropWhile
of (lower_bound < h) has lower_bound at least h. -/
theorem mem_dropWhile_lower_ge (h : ℤ) :
    ∀ {l : List CachedFacetBounds},
      List.Pairwise (fun a b => a.lower_bound ≤ b.lower_bound) l →
      ∀ {x : CachedFacetBounds},
        x ∈ l.dropWhile (fun f => decide (f.lower_bound < h)) → h ≤ x.lower_bound := by
  intro l
  induction l with
  | nil => intro _ x hx; simp [List.dropWhile] at hx
  | cons a t ih =>
    intro hp x hx
    rw [List.pairwise_cons] at hp
    rw [List.dropWhile_cons] at hx
    by_cases ha : a.lower_bound < h
    · rw [if_pos (by simpa using ha)] at hx
      exact ih hp.2 hx
    · rw [if_neg (by simpa using ha)] at hx
      rcases List.mem_cons.mp hx with rfl | hx'
      · omega
      · have := hp.1 x hx'
        omega

/-- In a list ascending by lower_bound, the takeWhile of
(lower_bound <= h) is the filter: once the predicate fails it fails
for the rest of the list. -/
theorem takeWhile_eq_filter_of_ascending (h : ℤ) :
    ∀ {l : List CachedFacetBounds},
      List.Pairwise (fun a b => a.lower_bound ≤ b.lower_bound) l →
      l.takeWhile (fun f => !decide (h < f.lower_bound)) =
        l.filter (fun f => !decide (h < f.lower_bound)) := by
  intro l
  induction l with
  | nil => intro _; rfl
  | cons a t ih =>
    intro hp
    rw [List.pairwise_cons] at hp
    by_cases ha : h < a.lower_bound
    · rw [List.takeWhile_cons, List.filter_cons]
      rw [if_neg (by simpa using ha), if_neg (by simpa using ha)]
      symm
      rw [List.filter_eq_nil_iff]
      intro x hx
      have hax := hp.1 x hx
      simp only [Bool.not_eq_true', decide_eq_false_iff_not, not_not]
      omega
    · rw [List.takeWhile_cons, List.filter_cons]
      rw [if_pos (by simpa using ha), if_pos (by simpa using ha)]
      rw [ih hp.2]

/-- On a state sorted by lower_bound descending, the intersection view is
exactly the filter of the facets with lower_bound <= current_height. -/
theorem intersectingBounds_eq_filter (s : ZSortedFacets)
    (hsort : List.Sorted (fun a b : CachedFacetBounds => b.lower_bound ≤ a.lower_bound)
      s.facets) :
    s.intersectingBounds =
      s.facets.filter (fun cb => decide (cb.lower_bound ≤ s.current_height)) := by
  have hasc : List.Pairwise (fun a b : CachedFacetBounds => a.lower_bound ≤ b.lower_bound)
      s.facets.reverse := by
    rw [List.pairwise_reverse]
    exact hsort
  have hpred : (fun cb : CachedFacetBounds => !decide (s.current_height < cb.lower_bound)) =
      (fun cb : CachedFacetBounds => decide (cb.lower_bound ≤ s.current_height)) := by
    funext cb
    rw [← decide_not, decide_eq_decide]
    omega
  unfold ZSortedFacets.intersectingBounds
  rw [takeWhile_eq_filter_of_ascending s.current_height hasc, hpred,
    List.filter_reverse, List.reverse_reverse]

/-- The reassembled facet list of advance_height is a sublist of the
original list. -/
theorem filterRun_append_sublist (p q : CachedFacetBounds → Bool)
    (l : List CachedFacetBounds) :
    (((l.reverse.takeWhile p).filter q ++ l.reverse.dropWhile p).reverse).Sublist l := by
  have h1 : ((l.reverse.takeWhile p).filter q ++ l.reverse.dropWhile p).Sublist
      (l.reverse.takeWhile p ++ l.reverse.dropWhile p) :=
    List.Sublist.append (List.filter_sublist _) (List.Sublist.refl _)
  rw [List.takeWhile_append_dropWhile] at h1
  have h2 := h1.reverse
  rwa [List.reverse_reverse] at h2

/-- advance_height only removes facets: the new list is a sublist. -/
theorem advance_height_sublist (s : ZSortedFacets) (inc : ℕ) :
    (s.advance_height inc).facets.Sublist s.facets := by
  rw [advance_height_eq]
  exact filterRun_append_sublist _ _ _

/-- After advance_height on a descending-sorted state whose cached bounds
satisfy lower <= upper, every retained facet has upper_bound at least the
new height. -/
theorem advance_height_upper_ge (s : ZSortedFacets) (inc : ℕ)
    (hsort : List.Sorted (fun a b : CachedFacetBounds => b.lower_bound ≤ a.lower_bound)
      s.facets)
    (hlu : ∀ cb ∈ s.facets, cb.lower_bound ≤ cb.upper_bound) :
    ∀ cb ∈ (s.advance_height inc).facets,
      (s.advance_height inc).current_height ≤ cb.upper_bound := by
  intro cb hcb
  rw [advance_height_eq] at hcb ⊢
  simp only [List.mem_reverse, List.mem_append] at hcb
  rcases hcb with hrun | hrest
  · have hkeep := (List.mem_filter.mp hrun).2
    simp only [Bool.not_eq_true', decide_eq_false_iff_not, not_lt] at hkeep
    exact hkeep
  · have hasc : List.Pairwise (fun a b : CachedFacetBounds => a.lower_bound ≤ b.lower_bound)
        s.facets.reverse := by
      rw [List.pairwise_reverse]
      exact hsort
    have hge := mem_dropWhile_lower_ge _ hasc hrest
    have hmem : cb ∈ s.facets := by
      rw [← List.mem_reverse]
      exact (List.dropWhile_sublist _).mem hrest
    have hcb2 := hlu cb hmem
    show s.current_height + (inc : ℤ) ≤ cb.upper_bound
    omega

/-- The constructed filter is sorted descending and every cached entry comes
from wrapping one of the given facets. -/
theorem new_sorted_and_bounds (facets : List Facet) (start_height : ℤ) :
    List.Sorted (fun a b : CachedFacetBounds => b.lower_bound ≤ a.lower_bound)
        (ZSortedFacets.new facets start_height).facets ∧
      (∀ cb ∈ (ZSortedFacets.new facets start_height).facets,
        cb ∈ facets.map CachedFacetBounds.new) := by
  have hms : List.Pairwise
      (fun a b : CachedFacetBounds => decide (b.lower_bound ≤ a.lower_bound) = true)
      ((facets.map CachedFacetBounds.new).mergeSort
        (fun a b => decide (b.lower_bound ≤ a.lower_bound))) := by
    refine List.sorted_mergeSort ?_ ?_ _
    · intro a b c hab hbc
      simp only [decide_eq_true_eq] at hab hbc ⊢
      omega
    · intro a b
      rcases le_total b.lower_bound a.lower_bound with hle | hle
      · simp [hle]
      · simp [hle]
  have hsorted : List.Sorted (fun a b : CachedFacetBounds => b.lower_bound ≤ a.lower_bound)
      ((facets.map CachedFacetBounds.new).mergeSort
        (fun a b => decide (b.lower_bound ≤ a.lower_bound))) := by
    refine hms.imp ?_
    intro a b hab
    simpa using hab
  have hsub := advance_height_sublist
    ⟨(facets.map CachedFacetBounds.new).mergeSort
      (fun a b => decide (b.lower_bound ≤ a.lower_bound)), start_height⟩ 0
  constructor
  · exact hsorted.sublist hsub
  · intro cb hcb
    have hmem := hsub.mem hcb
    rwa [List.mem_mergeSort] at hmem

/-- Cached bounds built by CachedFacetBounds.new satisfy lower <= upper. -/
theorem cached_lower_le_upper {cb : CachedFacetBounds} {facets : List Facet}
    (h : cb ∈ facets.map CachedFacetBounds.new) :
    cb.lower_bound ≤ cb.upper_bound := by
  obtain ⟨f, _, rfl⟩ := List.mem_map.mp h
  unfold CachedFacetBounds.new Facet.lower_z_bound Facet.upper_z_bound
  simp only
  omega

/-! C2: which facets the intersection view returns. -/

/-- C2 counterexample: the view is not the strict lower_z < current_height
suffix.  A facet whose lower_z equals the current height (the source
compares with lower_bound > current_height, not >=) is returned by
facet_intersections even though lower_z < current_height fails. -/
theorem facet_intersections_boundary_counterexample :
    (Scene.to_facet_filter ⟨[slantFacet]⟩).facet_intersections = [slantFacet] ∧
      ¬ (slantFacet.lower_z_bound < (Scene.to_facet_filter ⟨[slantFacet]⟩).current_height) := by
  have hff : Scene.to_facet_filter ⟨[slantFacet]⟩ = ⟨[CachedFacetBounds.new slantFacet], 0⟩ := by
    simp [Scene.to_facet_filter, ZSortedFacets.new, ZSortedFacets.advance_height,
      CachedFacetBounds.new, minLowerZ, Facet.lower_z_bound, Facet.upper_z_bound, slantFacet]
  rw [hff]
  decide

/-- C2 amended: on a state sorted by lower_bound descending,
facet_intersections returns exactly the facets with
lower_z <= current_height (not strictly less), and when every retained
facet satisfies current_height <= upper_z - which advance_height maintains -
every facet in the view satisfies
lower_z <= current_height <= upper_z. -/
theorem facet_intersections_le_characterization (s : ZSortedFacets)
    (hsort : List.Sorted (fun a b : CachedFacetBounds => b.lower_bound ≤ a.lower_bound)
      s.facets)
    (hub : ∀ cb ∈ s.facets, s.current_height ≤ cb.upper_bound) :
    s.facet_intersections =
        (s.facets.filter (fun cb => decide (cb.lower_bound ≤ s.current_height))).map
          (fun cb => cb.facet) ∧
      ∀ cb ∈ s.intersectingBounds,
        cb.lower_bound ≤ s.current_height ∧ s.current_height ≤ cb.upper_bound := by
  have hfe := intersectingBounds_eq_filter s hsort
  constructor
  · unfold ZSortedFacets.facet_intersections
    rw [hfe]
  · intro cb hcb
    rw [hfe] at hcb
    have hm := List.mem_filter.mp hcb
    refine ⟨by simpa using hm.2, hub cb hm.1⟩

/-- C2 witness for the amended characterization, on a one-facet state at
height 0 with the facet touching the plane from above. -/
theorem facet_intersections_le_characterization_witness :
    (ZSortedFacets.mk [CachedFacetBounds.new slantFacet] 0).facet_intersections =
        ((ZSortedFacets.mk [CachedFacetBounds.new slantFacet] 0).facets.filter
            (fun cb => decide (cb.lower_bound ≤
              (ZSortedFacets.mk [CachedFacetBounds.new slantFacet] 0).current_height))).map
          (fun cb => cb.facet) ∧
      ∀ cb ∈ (ZSortedFacets.mk [CachedFacetBounds.new slantFacet] 0).intersectingBounds,
        cb.lower_bound ≤ (ZSortedFacets.mk [CachedFacetBounds.new slantFacet] 0).current_height ∧
          (ZSortedFacets.mk [CachedFacetBounds.new slantFacet] 0).current_height ≤
            cb.upper_bound :=
  facet_intersections_le_characterization ⟨[CachedFacetBounds.new slantFacet], 0⟩
    (by simp) (by decide)

/-! C7: invariants preserved by advance_height. -/

/-- The sorted cached collection built inside ZSortedFacets.new is sorted
by lower_bound descending. -/
theorem sortedCached_sorted (facets : List Facet) :
    List.Sorted (fun a b : CachedFacetBounds => b.lower_bound ≤ a.lower_bound)
      ((facets.map CachedFacetBounds.new).mergeSort
        (fun a b => decide (b.lower_bound ≤ a.lower_bound))) := by
  have hms : List.Pairwise
      (fun a b : CachedFacetBounds => decide (b.lower_bound ≤ a.lower_bound) = true)
      ((facets.map CachedFacetBounds.new).mergeSort
        (fun a b => decide (b.lower_bound ≤ a.lower_bound))) := by
    refine List.sorted_mergeSort ?_ ?_ _
    · intro a b c hab hbc
      simp only [decide_eq_true_eq] at hab hbc ⊢
      omega
    · intro a b
      rcases le_total b.lower_bound a.lower_bound with hle | hle
      · simp [hle]
      · simp [hle]
  refine hms.imp ?_
  intro a b hab
  simpa using hab

/-- Right after construction every retained facet reaches the current
height. -/
theorem new_upper_ge (facets : List Facet) (start_height : ℤ) :
    ∀ cb ∈ (ZSortedFacets.new facets start_height).facets,
      (ZSortedFacets.new facets start_height).current_height ≤ cb.upper_bound := by
  have hsorted := sortedCached_sorted facets
  have hlu : ∀ cb ∈ ((facets.map CachedFacetBounds.new).mergeSort
      (fun a b => decide (b.lower_bound ≤ a.lower_bound))),
      cb.lower_bound ≤ cb.upper_bound := by
    intro cb hcb
    exact cached_lower_le_upper (List.mem_mergeSort.mp hcb)
  exact advance_height_upper_ge
    ⟨(facets.map CachedFacetBounds.new).mergeSort
      (fun a b => decide (b.lower_bound ≤ a.lower_bound)), start_height⟩ 0 hsorted hlu

/-- Folding any sequence of advance_height calls preserves sortedness, the
cached-bounds inequality and the upper-bound invariant. -/
theorem advance_fold_inv (incs : List ℕ) :
    ∀ s : ZSortedFacets,
      List.Sorted (fun a b : CachedFacetBounds => b.lower_bound ≤ a.lower_bound) s.facets →
      (∀ cb ∈ s.facets, cb.lower_bound ≤ cb.upper_bound) →
      (∀ cb ∈ s.facets, s.current_height ≤ cb.upper_bound) →
      List.Sorted (fun a b : CachedFacetBounds => b.lower_bound ≤ a.lower_bound)
          (incs.foldl ZSortedFacets.advance_height s).facets ∧
        (∀ cb ∈ (incs.foldl ZSortedFacets.advance_height s).facets,
          cb.lower_bound ≤ cb.upper_bound) ∧
        (∀ cb ∈ (incs.foldl ZSortedFacets.advance_height s).facets,
          (incs.foldl ZSortedFacets.advance_height s).current_height ≤ cb.upper_bound) := by
  induction incs with
  | nil => exact fun s h1 h2 h3 => ⟨h1, h2, h3⟩
  | cons i t ih =>
    intro s h1 h2 h3
    refine ih (s.advance_height i) ?_ ?_ ?_
    · exact h1.sublist (advance_height_sublist s i)
    · intro cb hcb
      exact h2 cb ((advance_height_sublist s i).mem hcb)
    · exact advance_height_upper_ge s i h1 h2

/-- C7: after constructing a ZSortedFacets and applying any sequence of
advance_height calls, every facet still in the list satisfies
upper_z >= current_height, and the list remains sorted by lower_z in
descending order. -/
theorem zsorted_invariants_after_advances (facets : List Facet) (start_height : ℤ)
    (incs : List ℕ) :
    (∀ cb ∈ (advanceSeq facets start_height incs).facets,
        (advanceSeq facets start_height incs).current_height ≤ cb.upper_bound) ∧
      List.Sorted (fun a b : CachedFacetBounds => b.lower_bound ≤ a.lower_bound)
        (advanceSeq facets start_height incs).facets := by
  have hnew := new_sorted_and_bounds facets start_height
  have hlu : ∀ cb ∈ (ZSortedFacets.new facets start_height).facets,
      cb.lower_bound ≤ cb.upper_bound :=
    fun cb hcb => cached_lower_le_upper (hnew.2 cb hcb)
  have hfold := advance_fold_inv incs (ZSortedFacets.new facets start_height) hnew.1 hlu
    (new_upper_ge facets start_height)
  exact ⟨hfold.2.2, hfold.1⟩

/-! C1 and C8: the idx == 2 assertion and termination of the sweep. -/

/-- If both endpoints are at or above the plane, an edge intersection can
only come from a vertex lying exactly on the plane. -/
theorem zinterpolate_above_some (u v : Vector3D) (plane : ℤ) (hu : plane ≤ u.z)
    (hv : plane ≤ v.z) {pt : Vector2D} (hpt : zinterpolate u v plane = some pt) :
    u.z = plane ∨ v.z = plane := by
  unfold zinterpolate at hpt
  by_cases h1 : u.z = v.z
  · rw [if_pos h1] at hpt
    simp at hpt
  · rw [if_neg h1] at hpt
    by_cases h2 : u.z = plane
    · exact Or.inl h2
    · rw [if_neg h2] at hpt
      by_cases h3 : v.z = plane
      · exact Or.inr h3
      · rw [if_neg h3] at hpt
        by_cases h4 : (u.z < plane ∧ v.z > plane) ∨ (u.z > plane ∧ v.z < plane)
        · rcases h4 with ⟨ha, _⟩ | ⟨_, hb⟩ <;> omega
        · rw [if_neg h4] at hpt
          simp at hpt

theorem passStep_of_none {plane : ℤ} {pts : List Vector2D} {flag : Bool} {u v : Vector3D}
    (hz : zinterpolate u v plane = none) :
    passStep plane (some (pts, flag)) (u, v) = some (pts, flag) := by
  simp [passStep, hz]

theorem passStep_vop_first {plane : ℤ} {u v : Vector3D} {pt : Vector2D}
    (hz : zinterpolate u v plane = some pt) (hvop : u.z = plane ∨ v.z = plane) :
    passStep plane (some ([], false)) (u, v) = some ([pt], true) := by
  simp [passStep, hz, hvop]

theorem passStep_vop_skip {plane : ℤ} {pts : List Vector2D} {u v : Vector3D} {pt : Vector2D}
    (hz : zinterpolate u v plane = some pt) (hvop : u.z = plane ∨ v.z = plane) :
    passStep plane (some (pts, true)) (u, v) = some (pts, true) := by
  simp [passStep, hz, hvop]

/-- A facet lying entirely at or above the plane never yields a segment:
each of its at most one recorded intersection comes from a vertex on the
plane, so the final assert_eq(idx, 2) fails (modelled by none). -/
theorem facetSegment_none_of_plane_le (f : Facet) (plane : ℤ)
    (h0 : plane ≤ f.p0.z) (h1 : plane ≤ f.p1.z) (h2 : plane ≤ f.p2.z) :
    facetSegment f plane = none := by
  unfold facetSegment vertexCombos
  simp only [List.foldl]
  cases hz1 : zinterpolate f.p0 f.p1 plane with
  | none =>
    rw [passStep_of_none hz1]
    cases hz2 : zinterpolate f.p0 f.p2 plane with
    | none =>
      rw [passStep_of_none hz2]
      cases hz3 : zinterpolate f.p1 f.p2 plane with
      | none => rw [passStep_of_none hz3]
      | some pt3 =>
        rw [passStep_vop_first hz3 (zinterpolate_above_some _ _ _ h1 h2 hz3)]
    | some pt2 =>
      rw [passStep_vop_first hz2 (zinterpolate_above_some _ _ _ h0 h2 hz2)]
      cases hz3 : zinterpolate f.p1 f.p2 plane with
      | none => rw [passStep_of_none hz3]
      | some pt3 =>
        rw [passStep_vop_skip hz3 (zinterpolate_above_some _ _ _ h1 h2 hz3)]
  | some pt1 =>
    rw [passStep_vop_first hz1 (zinterpolate_above_some _ _ _ h0 h1 hz1)]
    cases hz2 : zinterpolate f.p0 f.p2 plane with
    | none =>
      rw [passStep_of_none hz2]
      cases hz3 : zinterpolate f.p1 f.p2 plane with
      | none => rw [passStep_of_none hz3]
      | some pt3 =>
        rw [passStep_vop_skip hz3 (zinterpolate_above_some _ _ _ h1 h2 hz3)]
    | some pt2 =>
      rw [passStep_vop_skip hz2 (zinterpolate_above_some _ _ _ h0 h2 hz2)]
      cases hz3 : zinterpolate f.p1 f.p2 plane with
      | none => rw [passStep_of_none hz3]
      | some pt3 =>
        rw [passStep_vop_skip hz3 (zinterpolate_above_some _ _ _ h1 h2 hz3)]

/-- If some facet of the layer panics, the whole segment collection does. -/
theorem buildSegments_none_of_mem {facets : List Facet} {plane : ℤ}
    (hex : ∃ f ∈ facets, facetSegment f plane = none) :
    buildSegments facets plane = none := by
  unfold buildSegments
  induction facets with
  | nil =>
    obtain ⟨f, hf, _⟩ := hex
    cases hf
  | cons a t ih =>
    rw [List.mapM_cons]
    cases hfa : facetSegment a plane with
    | none => rfl
    | some y =>
      obtain ⟨f, hf, hfnone⟩ := hex
      rcases List.mem_cons.mp hf with rfl | hft
      · rw [hfa] at hfnone
        exact Option.noConfusion hfnone
      · rw [ih ⟨f, hft, hfnone⟩]
        rfl

theorem foldl_min_le_init : ∀ (l : List ℤ) (a : ℤ), l.foldl min a ≤ a := by
  intro l
  induction l with
  | nil => intro a; exact le_refl a
  | cons b t ih =>
    intro a
    calc List.foldl min (min a b) t ≤ min a b := ih (min a b)
      _ ≤ a := min_le_left a b

theorem foldl_min_le_mem : ∀ (l : List ℤ) (a : ℤ) {x : ℤ}, x ∈ l → l.foldl min a ≤ x := by
  intro l
  induction l with
  | nil => intro a x hx; cases hx
  | cons b t ih =>
    intro a x hx
    rcases List.mem_cons.mp hx with rfl | hxt
    · calc List.foldl min (min a x) t ≤ min a x := foldl_min_le_init t (min a x)
        _ ≤ x := min_le_right a x
    · exact ih (min a b) hxt

theorem foldl_min_attained : ∀ (l : List ℤ) (a : ℤ),
    l.foldl min a = a ∨ ∃ x ∈ l, l.foldl min a = x := by
  intro l
  induction l with
  | nil => intro a; exact Or.inl rfl
  | cons b t ih =>
    intro a
    rcases ih (min a b) with h | ⟨x, hx, hh⟩
    · rcases min_choice a b with hab | hab
      · left
        rw [show List.foldl min a (b :: t) = List.foldl min (min a b) t from rfl, h, hab]
      · right
        exact ⟨b, List.mem_cons_self b t, by
          rw [show List.foldl min a (b :: t) = List.foldl min (min a b) t from rfl, h, hab]⟩
    · right
      exact ⟨x, List.mem_cons_of_mem b hx, hh⟩

theorem minLowerZ_le {fs : List Facet} {f : Facet} (hf : f ∈ fs) :
    minLowerZ fs ≤ f.lower_z_bound := by
  rcases fs with _ | ⟨g, t⟩
  · cases hf
  · show (((g :: t).map Facet.lower_z_bound).min?.getD 0) ≤ f.lower_z_bound
    rw [show ((g :: t).map Facet.lower_z_bound).min? =
        some ((t.map Facet.lower_z_bound).foldl min g.lower_z_bound) from rfl]
    rcases List.mem_cons.mp hf with rfl | hft
    · exact foldl_min_le_init _ _
    · exact foldl_min_le_mem _ _ (List.mem_map_of_mem Facet.lower_z_bound hft)

theorem minLowerZ_attained {fs : List Facet} (hne : fs ≠ []) :
    ∃ f ∈ fs, f.lower_z_bound = minLowerZ fs := by
  rcases fs with _ | ⟨g, t⟩
  · exact absurd rfl hne
  · have hval : minLowerZ (g :: t) = (t.map Facet.lower_z_bound).foldl min g.lower_z_bound :=
      rfl
    rcases foldl_min_attained (t.map Facet.lower_z_bound) g.lower_z_bound with h | ⟨x, hx, hh⟩
    · exact ⟨g, List.mem_cons_self g t, by rw [hval, h]⟩
    · obtain ⟨f, hft, rfl⟩ := List.mem_map.mp hx
      exact ⟨f, List.mem_cons_of_mem g hft, by rw [hval, hh]⟩

/-- A facet that still reaches the new height survives advance_height. -/
theorem advance_height_keeps (s : ZSortedFacets) (inc : ℕ) {cb : CachedFacetBounds}
    (hcb : cb ∈ s.facets) (hub : s.current_height + (inc : ℤ) ≤ cb.upper_bound) :
    cb ∈ (s.advance_height inc).facets := by
  rw [advance_height_eq]
  simp only [List.mem_reverse, List.mem_append]
  have hrev : cb ∈ s.facets.reverse := List.mem_reverse.mpr hcb
  rw [← List.takeWhile_append_dropWhile
    (fun f => decide (f.lower_bound < s.current_height + (inc : ℤ))) s.facets.reverse] at hrev
  rcases List.mem_append.mp hrev with h | h
  · left
    refine List.mem_filter.mpr ⟨h, ?_⟩
    simp only [Bool.not_eq_true', decide_eq_false_iff_not, not_lt]
    exact hub
  · right
    exact h

theorem new_current_height (facets : List Facet) (start_height : ℤ) :
    (ZSortedFacets.new facets start_height).current_height = start_height := by
  show (ZSortedFacets.advance_height _ 0).current_height = start_height
  rw [advance_height_eq]
  simp

/-- In a non-empty scene, the first layer always panics: every facet of the
view at the starting height has its lowest vertex exactly on the plane and
every other vertex at or above it, so it produces at most one intersection
point and the assert_eq(idx, 2) fires. -/
theorem first_layer_panics {scene : Scene} (hne : scene.facets ≠ []) :
    buildSegments (Scene.to_facet_filter scene).facet_intersections
      (Scene.to_facet_filter scene).current_height = none := by
  show buildSegments
    (ZSortedFacets.new scene.facets (minLowerZ scene.facets)).facet_intersections
    (ZSortedFacets.new scene.facets (minLowerZ scene.facets)).current_height = none
  obtain ⟨f0, hf0mem, hf0min⟩ := minLowerZ_attained hne
  have hsorted := (new_sorted_and_bounds scene.facets (minLowerZ scene.facets)).1
  have hcb0sorted : CachedFacetBounds.new f0 ∈
      (scene.facets.map CachedFacetBounds.new).mergeSort
        (fun a b => decide (b.lower_bound ≤ a.lower_bound)) := by
    rw [List.mem_mergeSort]
    exact List.mem_map_of_mem CachedFacetBounds.new hf0mem
  have hcb0 : CachedFacetBounds.new f0 ∈
      (ZSortedFacets.new scene.facets (minLowerZ scene.facets)).facets := by
    refine advance_height_keeps _ 0 hcb0sorted ?_
    show minLowerZ scene.facets + ((0 : ℕ) : ℤ) ≤ (CachedFacetBounds.new f0).upper_bound
    have hl : (CachedFacetBounds.new f0).lower_bound = f0.lower_z_bound := rfl
    have hu := cached_lower_le_upper (List.mem_map_of_mem CachedFacetBounds.new hf0mem)
    simp only [Nat.cast_zero, add_zero]
    omega
  have hheight : (ZSortedFacets.new scene.facets (minLowerZ scene.facets)).current_height =
      minLowerZ scene.facets :=
    new_current_height scene.facets (minLowerZ scene.facets)
  have hview : CachedFacetBounds.new f0 ∈
      (ZSortedFacets.new scene.facets (minLowerZ scene.facets)).intersectingBounds := by
    rw [intersectingBounds_eq_filter _ hsorted]
    refine List.mem_filter.mpr ⟨hcb0, ?_⟩
    rw [hheight]
    simp only [decide_eq_true_eq]
    show f0.lower_z_bound ≤ minLowerZ scene.facets
    omega
  refine buildSegments_none_of_mem ⟨f0, ?_, ?_⟩
  · unfold ZSortedFacets.facet_intersections
    exact List.mem_map_of_mem _ hview
  · rw [hheight]
    have hmin := hf0min
    unfold Facet.lower_z_bound at hmin
    refine facetSegment_none_of_plane_le f0 (minLowerZ scene.facets) ?_ ?_ ?_ <;> omega

/-- C1: the per-triangle assertions do fire.  A horizontal facet at z = 0 is
yielded by facet_intersections at the starting plane height 0 (its lower_z
equals the height and the source compares with >, not >=), all three of its
edges are parallel to the plane, so zero intersection points are collected
and assert_eq!(idx, 2) fails: slicing this one-facet scene panics
immediately. -/
theorem slice_asserts_fire_on_flat_facet :
    (Scene.to_facet_filter ⟨[flatFacetZ0]⟩).facet_intersections = [flatFacetZ0] ∧
      facetSegment flatFacetZ0 (Scene.to_facet_filter ⟨[flatFacetZ0]⟩).current_height = none ∧
      Slicer.slice ⟨200000⟩ ⟨[flatFacetZ0]⟩ 1 = some .panicked := by
  have hff : Scene.to_facet_filter ⟨[flatFacetZ0]⟩ = ⟨[CachedFacetBounds.new flatFacetZ0], 0⟩ := by
    simp [Scene.to_facet_filter, ZSortedFacets.new, ZSortedFacets.advance_height,
      CachedFacetBounds.new, minLowerZ, Facet.lower_z_bound, Facet.upper_z_bound, flatFacetZ0]
  refine ⟨?_, ?_, ?_⟩
  · rw [hff]
    decide
  · rw [hff]
    decide
  · rw [Slicer.slice, if_neg (by decide), hff, sliceLoop_eq_tdiv]
    decide

/-! C8: termination of the sweep loop. -/

/-- C8 counterexample: with layer_height = 0 and a non-empty scene the sweep
loop does not run forever - it terminates at the very first iteration,
because the first layer panics on the idx == 2 assertion (one unit of fuel
suffices to reach the exit). -/
theorem slice_zero_layer_height_terminates :
    Slicer.slice ⟨0⟩ ⟨[slantFacet]⟩ 1 = some .panicked := by
  have hff : Scene.to_facet_filter ⟨[slantFacet]⟩ = ⟨[CachedFacetBounds.new slantFacet], 0⟩ := by
    simp [Scene.to_facet_filter, ZSortedFacets.new, ZSortedFacets.advance_height,
      CachedFacetBounds.new, minLowerZ, Facet.lower_z_bound, Facet.upper_z_bound, slantFacet]
  rw [Slicer.slice, if_neg (by decide), hff, sliceLoop_eq_tdiv]
  decide

/-- C8 amended: Slicer::slice terminates on every scene and for every layer
height, layer_height >= 1 or not: an empty scene returns EmptyScene at once,
and a non-empty scene panics during its first layer (first_layer_panics), so
one iteration of fuel always suffices and the layer_height = 0 sweep never
gets the chance to loop forever. -/
theorem slice_always_terminates (cfg : SlicerConfig) (scene : Scene) (fuel : ℕ)
    (hfuel : 1 ≤ fuel) : Slicer.slice cfg scene fuel ≠ none := by
  unfold Slicer.slice
  by_cases hemp : scene.facets.isEmpty
  · rw [if_pos hemp]
    simp
  · rw [if_neg hemp]
    obtain ⟨k, rfl⟩ : ∃ k, fuel = k + 1 := ⟨fuel - 1, by omega⟩
    show sliceLoop cfg (k + 1) scene.to_facet_filter [] ≠ none
    unfold sliceLoop
    by_cases hffemp : scene.to_facet_filter.facets.isEmpty
    · rw [if_pos hffemp]
      simp
    · rw [if_neg hffemp]
      have hne : scene.facets ≠ [] := by
        intro hnil
        apply hemp
        rw [hnil]
        rfl
      rw [first_layer_panics hne]
      simp

/-- C8 witness for the amended theorem: at layer height 0 on a one-facet
scene, one unit of fuel already returns an outcome. -/
theorem slice_always_terminates_witness :
    Slicer.slice ⟨0⟩ ⟨[flatFacetZ0]⟩ 1 ≠ none :=
  slice_always_terminates ⟨0⟩ ⟨[flatFacetZ0]⟩ 1 (by decide)

/-! C9 and C10: Mesh::new_zeroed. -/

theorem foldl_minV (fs : List Facet) :
    ∀ v : Vector3D,
      fs.foldl
          (fun t g =>
            (⟨min t.x g.lower_bound.x, min t.y g.lower_bound.y,
              min t.z g.lower_bound.z⟩ : Vector3D)) v =
        ⟨(fs.map (fun g => g.lower_bound.x)).foldl min v.x,
         (fs.map (fun g => g.lower_bound.y)).foldl min v.y,
         (fs.map (fun g => g.lower_bound.z)).foldl min v.z⟩ := by
  induction fs with
  | nil => intro v; rfl
  | cons g t ih =>
    intro v
    simp only [List.foldl_cons, List.map_cons]
    rw [ih ⟨min v.x g.lower_bound.x, min v.y g.lower_bound.y, min v.z g.lower_bound.z⟩]

/-- The zeroize translation is below every facet's lower bound,
componentwise. -/
theorem zeroizeTranslation_le (f : Facet) (fs : List Facet) :
    ∀ g ∈ f :: fs,
      (zeroizeTranslation f fs).x ≤ g.lower_bound.x ∧
        (zeroizeTranslation f fs).y ≤ g.lower_bound.y ∧
        (zeroizeTranslation f fs).z ≤ g.lower_bound.z := by
  intro g hg
  rw [zeroizeTranslation, foldl_minV]
  rcases List.mem_cons.mp hg with rfl | hgt
  · exact ⟨foldl_min_le_init _ _, foldl_min_le_init _ _, foldl_min_le_init _ _⟩
  · exact ⟨foldl_min_le_mem _ _ (List.mem_map_of_mem _ hgt),
      foldl_min_le_mem _ _ (List.mem_map_of_mem _ hgt),
      foldl_min_le_mem _ _ (List.mem_map_of_mem _ hgt)⟩

/-- Each component of the zeroize translation is attained by some facet's
lower bound. -/
theorem zeroizeTranslation_attained (f : Facet) (fs : List Facet) :
    (∃ g ∈ f :: fs, (zeroizeTranslation f fs).x = g.lower_bound.x) ∧
      (∃ g ∈ f :: fs, (zeroizeTranslation f fs).y = g.lower_bound.y) ∧
      (∃ g ∈ f :: fs, (zeroizeTranslation f fs).z = g.lower_bound.z) := by
  rw [zeroizeTranslation, foldl_minV]
  refine ⟨?_, ?_, ?_⟩
  · rcases foldl_min_attained (fs.map (fun g => g.lower_bound.x)) f.lower_bound.x with h | h
    · exact ⟨f, List.mem_cons_self f fs, h⟩
    · obtain ⟨x, hx, hh⟩ := h
      obtain ⟨g, hgt, rfl⟩ := List.mem_map.mp hx
      exact ⟨g, List.mem_cons_of_mem f hgt, hh⟩
  · rcases foldl_min_attained (fs.map (fun g => g.lower_bound.y)) f.lower_bound.y with h | h
    · exact ⟨f, List.mem_cons_self f fs, h⟩
    · obtain ⟨x, hx, hh⟩ := h
      obtain ⟨g, hgt, rfl⟩ := List.mem_map.mp hx
      exact ⟨g, List.mem_cons_of_mem f hgt, hh⟩
  · rcases foldl_min_attained (fs.map (fun g => g.lower_bound.z)) f.lower_bound.z with h | h
    · exact ⟨f, List.mem_cons_self f fs, h⟩
    · obtain ⟨x, hx, hh⟩ := h
      obtain ⟨g, hgt, rfl⟩ := List.mem_map.mp hx
      exact ⟨g, List.mem_cons_of_mem f hgt, hh⟩

/-- The facet lower bound is below each of its vertices, componentwise. -/
theorem lower_bound_le_point (g : Facet) :
    ∀ p ∈ g.points,
      g.lower_bound.x ≤ p.x ∧ g.lower_bound.y ≤ p.y ∧ g.lower_bound.z ≤ p.z := by
  intro p hp
  unfold Facet.points at hp
  unfold Facet.lower_bound
  simp only [List.mem_cons, List.mem_singleton, List.not_mem_nil, or_false] at hp
  rcases hp with rfl | rfl | rfl <;> refine ⟨?_, ?_, ?_⟩ <;> simp only <;> omega

theorem min3_cases (a b c : ℤ) :
    min a (min b c) = a ∨ min a (min b c) = b ∨ min a (min b c) = c := by
  rcases min_choice a (min b c) with h | h
  · exact Or.inl h
  · rcases min_choice b c with h2 | h2
    · exact Or.inr (Or.inl (h.trans h2))
    · exact Or.inr (Or.inr (h.trans h2))

/-- Each component of the facet lower bound is attained at some vertex. -/
theorem lower_bound_attained_point (g : Facet) :
    (∃ p ∈ g.points, g.lower_bound.x = p.x) ∧
      (∃ p ∈ g.points, g.lower_bound.y = p.y) ∧
      (∃ p ∈ g.points, g.lower_bound.z = p.z) := by
  unfold Facet.lower_bound Facet.points
  refine ⟨?_, ?_, ?_⟩
  · rcases min3_cases g.p0.x g.p1.x g.p2.x with h | h | h
    · exact ⟨g.p0, by simp, h⟩
    · exact ⟨g.p1, by simp, h⟩
    · exact ⟨g.p2, by simp, h⟩
  · rcases min3_cases g.p0.y g.p1.y g.p2.y with h | h | h
    · exact ⟨g.p0, by simp, h⟩
    · exact ⟨g.p1, by simp, h⟩
    · exact ⟨g.p2, by simp, h⟩
  · rcases min3_cases g.p0.z g.p1.z g.p2.z with h | h | h
    · exact ⟨g.p0, by simp, h⟩
    · exact ⟨g.p1, by simp, h⟩
    · exact ⟨g.p2, by simp, h⟩

/-- Vertices of a translated facet are the translated vertices. -/
theorem mem_points_translate {g : Facet} {v : Vector3D} {q : Vector3D} :
    q ∈ (g.translate v).points ↔ ∃ p ∈ g.points, q = p.add v := by
  unfold Facet.translate Facet.points
  simp only [List.mem_cons, List.mem_singleton, List.not_mem_nil, or_false]
  constructor
  · rintro (rfl | rfl | rfl)
    · exact ⟨g.p0, Or.inl rfl, rfl⟩
    · exact ⟨g.p1, Or.inr (Or.inl rfl), rfl⟩
    · exact ⟨g.p2, Or.inr (Or.inr rfl), rfl⟩
  · rintro ⟨p, (rfl | rfl | rfl), rfl⟩
    · exact Or.inl rfl
    · exact Or.inr (Or.inl rfl)
    · exact Or.inr (Or.inr rfl)

/-- Translating shifts the cached z bound. -/
theorem lower_z_bound_translate (g : Facet) (v : Vector3D) :
    (g.translate v).lower_z_bound = g.lower_z_bound + v.z := by
  unfold Facet.translate Facet.lower_z_bound Vector3D.add
  simp only
  omega

/-- The z component of the facet lower bound is its lower_z_bound. -/
theorem lower_bound_z_eq (g : Facet) : g.lower_bound.z = g.lower_z_bound := rfl

/-- C9: on any non-empty facet list, Mesh::new_zeroed succeeds and the
resulting mesh lies in the nonnegative octant with each coordinate minimum
exactly 0; consequently the sweep of a scene built from it starts at
current_height = 0. -/
theorem new_zeroed_normalizes_to_origin (f : Facet) (fs : List Facet) :
    ∃ m, Mesh.new_zeroed (f :: fs) = some m ∧
      (∀ g ∈ m.facets, ∀ p ∈ g.points, 0 ≤ p.x ∧ 0 ≤ p.y ∧ 0 ≤ p.z) ∧
      (∃ g ∈ m.facets, ∃ p ∈ g.points, p.x = 0) ∧
      (∃ g ∈ m.facets, ∃ p ∈ g.points, p.y = 0) ∧
      (∃ g ∈ m.facets, ∃ p ∈ g.points, p.z = 0) ∧
      (Scene.to_facet_filter ⟨m.facets⟩).current_height = 0 := by
  refine ⟨Mesh.translate ⟨f :: fs⟩ ((zeroizeTranslation f fs).mul (-1)), rfl, ?_, ?_, ?_, ?_, ?_⟩
  · intro g hg p hp
    obtain ⟨g0, hg0, rfl⟩ := List.mem_map.mp hg
    obtain ⟨p0, hp0, rfl⟩ := mem_points_translate.mp hp
    have hle := zeroizeTranslation_le f fs g0 hg0
    have hpt := lower_bound_le_point g0 p0 hp0
    unfold Vector3D.add Vector3D.mul
    simp only
    refine ⟨?_, ?_, ?_⟩ <;> omega
  · obtain ⟨g0, hg0, hgx⟩ := (zeroizeTranslation_attained f fs).1
    obtain ⟨p0, hp0, hpx⟩ := (lower_bound_attained_point g0).1
    refine ⟨g0.translate ((zeroizeTranslation f fs).mul (-1)), List.mem_map_of_mem _ hg0,
      p0.add ((zeroizeTranslation f fs).mul (-1)), mem_points_translate.mpr ⟨p0, hp0, rfl⟩, ?_⟩
    unfold Vector3D.add Vector3D.mul
    simp only
    omega
  · obtain ⟨g0, hg0, hgy⟩ := (zeroizeTranslation_attained f fs).2.1
    obtain ⟨p0, hp0, hpy⟩ := (lower_bound_attained_point g0).2.1
    refine ⟨g0.translate ((zeroizeTranslation f fs).mul (-1)), List.mem_map_of_mem _ hg0,
      p0.add ((zeroizeTranslation f fs).mul (-1)), mem_points_translate.mpr ⟨p0, hp0, rfl⟩, ?_⟩
    unfold Vector3D.add Vector3D.mul
    simp only
    omega
  · obtain ⟨g0, hg0, hgz⟩ := (zeroizeTranslation_attained f fs).2.2
    obtain ⟨p0, hp0, hpz⟩ := (lower_bound_attained_point g0).2.2
    refine ⟨g0.translate ((zeroizeTranslation f fs).mul (-1)), List.mem_map_of_mem _ hg0,
      p0.add ((zeroizeTranslation f fs).mul (-1)), mem_points_translate.mpr ⟨p0, hp0, rfl⟩, ?_⟩
    unfold Vector3D.add Vector3D.mul
    simp only
    omega
  · rw [show (Scene.to_facet_filter
        ⟨(Mesh.translate ⟨f :: fs⟩ ((zeroizeTranslation f fs).mul (-1))).facets⟩).current_height =
        minLowerZ (Mesh.translate ⟨f :: fs⟩ ((zeroizeTranslation f fs).mul (-1))).facets from
      new_current_height _ _]
    have hmz : ((zeroizeTranslation f fs).mul (-1)).z = -(zeroizeTranslation f fs).z := by
      unfold Vector3D.mul
      simp only
      omega
    have hge : (0 : ℤ) ≤ minLowerZ (Mesh.translate ⟨f :: fs⟩
        ((zeroizeTranslation f fs).mul (-1))).facets := by
      have hne : (Mesh.translate ⟨f :: fs⟩ ((zeroizeTranslation f fs).mul (-1))).facets ≠ [] := by
        intro hnil
        exact List.noConfusion (List.map_eq_nil_iff.mp hnil)
      obtain ⟨g', hg', hmin⟩ := minLowerZ_attained hne
      obtain ⟨g0, hg0, rfl⟩ := List.mem_map.mp hg'
      rw [← hmin, lower_z_bound_translate, hmz]
      have hle := (zeroizeTranslation_le f fs g0 hg0).2.2
      rw [lower_bound_z_eq] at hle
      omega
    have hle : minLowerZ (Mesh.translate ⟨f :: fs⟩
        ((zeroizeTranslation f fs).mul (-1))).facets ≤ 0 := by
      obtain ⟨g0, hg0, hgz⟩ := (zeroizeTranslation_attained f fs).2.2
      have hmem : (g0.translate ((zeroizeTranslation f fs).mul (-1))) ∈
          (Mesh.translate ⟨f :: fs⟩ ((zeroizeTranslation f fs).mul (-1))).facets :=
        List.mem_map_of_mem _ hg0
      have h1 := minLowerZ_le hmem
      rw [lower_z_bound_translate, hmz] at h1
      rw [lower_bound_z_eq] at hgz
      omega
    omega

/-- C10: Mesh::new_zeroed on an empty facet vector panics - zeroize indexes
facets[0] out of bounds, modelled by none - instead of returning an error,
while every non-empty facet vector succeeds; the non-emptiness precondition
is enforced only upstream (both STL parsers reject meshes with zero
facets). -/
theorem new_zeroed_empty_panics :
    Mesh.new_zeroed [] = none ∧
      ∀ (f : Facet) (fs : List Facet), ∃ m, Mesh.new_zeroed (f :: fs) = some m :=
  ⟨rfl, fun f fs => ⟨Mesh.translate ⟨f :: fs⟩ ((zeroizeTranslation f fs).mul (-1)), rfl⟩⟩

end DDD
